import Mathlib

/-!
Verification development for the `kit` repository's `redisx` package: the
generic `HashMap[K,V]` and `ZQueue[T]` adapters over a Redis-like store,
and the `typex` string codec they rely on.

The adapters (`src/redisx/hash_map.go`, `src/redisx/z_queue.go`) are
shallowly embedded: each Go method becomes a Lean function over an
explicit model `Store`; pipelined calls become explicit command batches
executed by `execPipe`, returning the first error of the batch as
`go-redis`'s `Pipeliner.Exec` does.  Machine integers (`int64`,
`time.Duration`) are modelled as `Int`.  `float64` values that arise from
`int64` scores are modelled exactly: every double reachable through this
adapter is integral, so its value is an `Int`, and the `int64 → float64`
conversion is the round-to-nearest-even function `f64ofInt`.

The `typex` codec (`utils/typex`, not part of the sources provided under
`src/`) is modelled from the spec, §4.1.
-/

namespace Kit

/-- Decidable equality of `Except` results, used to evaluate the model on
concrete inputs. -/
instance instDecEqExcept {ε α : Type} [DecidableEq ε] [DecidableEq α] :
    DecidableEq (Except ε α) := fun x y =>
  match x, y with
  | Except.ok a, Except.ok b =>
    if h : a = b then isTrue (by rw [h])
    else isFalse (by intro hc; injection hc; exact h ‹_›)
  | Except.error a, Except.error b =>
    if h : a = b then isTrue (by rw [h])
    else isFalse (by intro hc; injection hc; exact h ‹_›)
  | Except.ok _, Except.error _ => isFalse (by intro hc; exact Except.noConfusion hc)
  | Except.error _, Except.ok _ => isFalse (by intro hc; exact Except.noConfusion hc)

/-- Whether a fallible result is a success (Go: `err == nil`). -/
def exceptOk {ε α : Type} : Except ε α → Bool
  | Except.ok _ => true
  | Except.error _ => false

/-! ## Decimal string codec

Modelled from the spec: `utils/typex.ToString` / `typex.ToAnyE` /
`typex.ToAny` are not under `src/`; §4.1 of the spec specifies a
deterministic round-trippable string form for integers, booleans and
strings, with `decode` failing on malformed input and `ToAny` (used by
`redisZToElement`) the variant without an error result. -/

def digitToChar (d : Nat) : Char := Char.ofNat (48 + d)

def charToDigit (c : Char) : Nat := c.toNat - 48

def isDigitChar (c : Char) : Bool := 48 ≤ c.toNat && c.toNat ≤ 57

/-- Little-endian decimal digits, by structural recursion on a fuel bound
(so that concrete encodings reduce inside the kernel); it agrees with
`Nat.digits 10` — see `natDigits_eq`. -/
def natDigitsAux : Nat → Nat → List Nat
  | 0, _ => []
  | _ + 1, 0 => []
  | fuel + 1, n + 1 => (n + 1) % 10 :: natDigitsAux fuel ((n + 1) / 10)

def natDigits (n : Nat) : List Nat := natDigitsAux n n

/-- Decimal digits of a natural number, most significant first; `0 ↦ "0"`. -/
def natChars (n : Nat) : List Char :=
  if n = 0 then ['0'] else ((natDigits n).map digitToChar).reverse

def natToStr (n : Nat) : String := ⟨natChars n⟩

def charsToNat (l : List Char) : Nat :=
  Nat.ofDigits 10 ((l.map charToDigit).reverse)

/-- Parse a nonempty all-digit character list; `none` otherwise. -/
def natFromChars (l : List Char) : Option Nat :=
  match l with
  | [] => none
  | _ :: _ => if l.all isDigitChar then some (charsToNat l) else none

def intChars (n : Int) : List Char :=
  if n < 0 then '-' :: natChars n.natAbs else natChars n.toNat

def intToStr (n : Int) : String := ⟨intChars n⟩

def intFromChars (l : List Char) : Except String Int :=
  match l with
  | [] => Except.error "empty string"
  | c :: rest =>
    if c = '-' then
      match natFromChars rest with
      | some m => Except.ok (-(m : Int))
      | none => Except.error "not an integer"
    else
      match natFromChars (c :: rest) with
      | some m => Except.ok (m : Int)
      | none => Except.error "not an integer"

def intFromStr (s : String) : Except String Int := intFromChars s.data

def natFromStr (s : String) : Except String Nat :=
  match natFromChars s.data with
  | some m => Except.ok m
  | none => Except.error "not a natural number"

/-- A typed string codec: the modelled capability of `typex` for one
concrete type (spec §4.1 and §9: a tagged-capability strategy).
`zero` is the Go zero value of the type (`var res V`). -/
structure Codec (α : Type) where
  toStr : α → String
  toAnyE : String → Except String α
  zero : α

/-- Modelled from the spec: `typex.ToAny` — the decode variant without an
error result, yielding the zero value when decoding fails (it is used by
`redisZToElement`, whose own result type has no error channel). -/
def Codec.toAny {α : Type} (c : Codec α) (s : String) : α :=
  match c.toAnyE s with
  | Except.ok v => v
  | Except.error _ => c.zero

def intCodec : Codec Int := ⟨intToStr, intFromStr, 0⟩

def natCodec : Codec Nat := ⟨natToStr, natFromStr, 0⟩

def strCodec : Codec String := ⟨id, Except.ok, ""⟩

def boolCodec : Codec Bool :=
  ⟨fun b => if b then "true" else "false",
   fun s =>
     if s = "true" then Except.ok true
     else if s = "false" then Except.ok false
     else Except.error "not a boolean",
   false⟩

/-! ## Exact model of the float64 conversions

The only doubles reachable through the adapters are produced by Go's
`float64(score)` conversion of an `int64` in `ZQueue.Add`/`AddMulti`
(`z_queue.go` lines 54 and 69); such a double is always integral, so its
exact value is an `Int`.  `float64(int64)` rounds to the nearest
representable double, ties to even; a double with `2^(52+e) ≤ |v| <
2^(53+e)` is a multiple of `2^e`.  `int64(float64)` (used in
`redisZToElement` line 37 and `Score` line 248) truncates; on an integral
in-range value it is exact, and on out-of-range input x86 yields the
indefinite value `-2^63`. -/

/-- Exponent `e` such that doubles of this magnitude are the multiples of
`2^e` (`0` when every integer of this magnitude is representable). -/
def ulpExp (m : Nat) : Nat := if m ≤ 2 ^ 53 then 0 else Nat.log2 m - 52

/-- Round an integer to the nearest multiple of `2^e`, ties to even. -/
def roundMul (s : Int) (e : Nat) : Int :=
  let u : Int := 2 ^ e
  let r := Int.emod s u
  let base := s - r
  if 2 * r < u then base
  else if u < 2 * r then base + u
  else if Int.emod base (2 * u) = 0 then base else base + u

/-- Value of the double produced by Go's `float64(s)` for `s : int64`. -/
def f64ofInt (s : Int) : Int := roundMul s (ulpExp s.natAbs)

/-- Value of Go's `int64(v)` for an integral double of value `v`. -/
def i64ofF64 (v : Int) : Int :=
  if v < -(2 ^ 63) ∨ 2 ^ 63 ≤ v then -(2 ^ 63) else v

/-! ## Association lists: the model of Redis hashes and sorted sets

A hash is a list of `(field, value)` pairs with unique fields; a sorted
set is a list of `(member, score)` pairs with unique members (ordering is
imposed at query time, as Redis does conceptually). -/

def aget {β : Type} : List (String × β) → String → Option β
  | [], _ => none
  | (k, v) :: t, key => if k = key then some v else aget t key

def aset {β : Type} : List (String × β) → String → β → List (String × β)
  | [], k, v => [(k, v)]
  | (k', v') :: t, k, v => if k' = k then (k, v) :: t else (k', v') :: aset t k v

def adel {β : Type} : List (String × β) → String → List (String × β)
  | [], _ => []
  | (k', v') :: t, k => if k' = k then t else (k', v') :: adel t k

/-! ## The model store and the wire-command layer

`Store` models the remote Redis instance's data (expiry timing is outside
the model: the `EXPIRE` command is acknowledged and leaves the data
unchanged).  `Cmd` is the exact set of commands the two adapters issue;
`Resp`/`RErr` model the replies and errors go-redis surfaces.  Scores in
`zadd`/`zs` replies are the exact values of the (integral) doubles on the
wire, per the float64 model above. -/

structure Store where
  hashes : List (String × List (String × String))
  zsets : List (String × List (String × Int))
deriving DecidableEq

def Store.hash (st : Store) (k : String) : List (String × String) :=
  (aget st.hashes k).getD []

def Store.zset (st : Store) (k : String) : List (String × Int) :=
  (aget st.zsets k).getD []

inductive Cmd where
  | hset (key : String) (fvs : List (String × String))
  | hget (key field : String)
  | hmget (key : String) (fields : List String)
  | hgetall (key : String)
  | hkeys (key : String)
  | hvals (key : String)
  | hincrby (key field : String) (n : Int)
  | hincrbyfloat (key field : String) (num : Int) (scale : Nat)
  | expire (key : String) (ttl : Int)
  | zadd (key : String) (ms : List (Int × String))
  | zrem (key : String) (ms : List String)
  | zrangebyscore (key minB maxB : String) (offset count : Int) (rev : Bool)
  | zpopmin (key : String) (count : Int)
  | zpopmax (key : String) (count : Int)
  | zscore (key member : String)
deriving DecidableEq

inductive RErr where
  | rnil
  | wrongArity (c : String)
  | notInt
  | notFloat
  | badBound
  | badResp
  | conv (msg : String)
deriving DecidableEq

inductive Resp where
  | int (n : Int)
  | str (s : String)
  | boolR (b : Bool)
  | optStrs (l : List (Option String))
  | pairs (l : List (String × String))
  | strs (l : List String)
  | zs (l : List (Int × String))
deriving DecidableEq

/-! ### Score bounds and range semantics

The model parses the bound forms the adapters emit: `-inf`, `+inf`/`inf`
and decimal integers (Redis additionally accepts decimal fractions and
exclusive `(`-prefixed bounds, which no adapter call produces). -/

inductive Bnd where
  | ninf
  | pinf
  | fin (v : Int)
deriving DecidableEq

def parseBound (s : String) : Except RErr Bnd :=
  if s = "-inf" then Except.ok Bnd.ninf
  else if s = "+inf" ∨ s = "inf" then Except.ok Bnd.pinf
  else
    match intFromStr s with
    | Except.ok v => Except.ok (Bnd.fin v)
    | Except.error _ => Except.error RErr.badBound

/-- Does score `s` satisfy the lower bound? -/
def geMin : Bnd → Int → Bool
  | Bnd.ninf, _ => true
  | Bnd.pinf, _ => false
  | Bnd.fin v, s => v ≤ s

/-- Does score `s` satisfy the upper bound? -/
def leMax : Bnd → Int → Bool
  | Bnd.pinf, _ => true
  | Bnd.ninf, _ => false
  | Bnd.fin v, s => s ≤ v

/-- Redis sorted-set order: by score, then lexically by member. -/
def zleAsc (a b : String × Int) : Bool :=
  decide (a.2 < b.2) || (decide (a.2 = b.2) && !decide (b.1 < a.1))

def insertSorted {α : Type} (le : α → α → Bool) (x : α) : List α → List α
  | [] => [x]
  | y :: ys => if le x y then x :: y :: ys else y :: insertSorted le x ys

def sortByB {α : Type} (le : α → α → Bool) (l : List α) : List α :=
  l.foldr (insertSorted le) []

def sortAsc (l : List (String × Int)) : List (String × Int) := sortByB zleAsc l

/-- Redis `LIMIT offset count`: a negative count means no limit. -/
def applyLimit {α : Type} (offset count : Int) (l : List α) : List α :=
  if count < 0 then l.drop offset.toNat
  else (l.drop offset.toNat).take count.toNat

/-- `ZRANGEBYSCORE` / `ZREVRANGEBYSCORE` before pagination: order the set
(reversed for the `REV` form) and keep the scores within the bounds. -/
def zrangeSem (l : List (String × Int)) (lo hi : Bnd) (rev : Bool) :
    List (String × Int) :=
  let sorted := sortAsc l
  (if rev then sorted.reverse else sorted).filter fun p => geMin lo p.2 && leMax hi p.2

/-! ### Decimal parsing/printing for `HINCRBYFLOAT`

Redis stores hash values as strings and `HINCRBYFLOAT` operates on their
decimal forms; a decimal is modelled exactly as `(significand, scale)`
with value `significand / 10 ^ scale`. -/

def parseDecNat (l : List Char) : Option (Nat × Nat) :=
  let ip := l.takeWhile isDigitChar
  let rest := l.dropWhile isDigitChar
  if ip.isEmpty then none
  else
    match rest with
    | [] => some (charsToNat ip, 0)
    | '.' :: fp =>
      if !fp.isEmpty && fp.all isDigitChar then
        some (charsToNat (ip ++ fp), fp.length)
      else none
    | _ => none

def parseDec (s : String) : Option (Int × Nat) :=
  match s.data with
  | '-' :: rest => (parseDecNat rest).map fun p => (-(p.1 : Int), p.2)
  | l => (parseDecNat l).map fun p => ((p.1 : Int), p.2)

def printDec (i : Int) (k : Nat) : String :=
  if k = 0 then intToStr i
  else
    let ds := natChars i.natAbs
    let ds := if ds.length < k + 1 then List.replicate (k + 1 - ds.length) '0' ++ ds else ds
    let body := ds.take (ds.length - k) ++ '.' :: ds.drop (ds.length - k)
    ⟨if i < 0 then '-' :: body else body⟩

/-! ### Command execution -/

def execCmd (st : Store) : Cmd → Store × Except RErr Resp
  | Cmd.hset key fvs =>
    if fvs.isEmpty then (st, Except.error (RErr.wrongArity "hset"))
    else
      let res := fvs.foldl
        (fun (p : List (String × String) × Nat) fv =>
          (aset p.1 fv.1 fv.2, p.2 + if (aget p.1 fv.1).isNone then 1 else 0))
        (st.hash key, 0)
      ({ st with hashes := aset st.hashes key res.1 }, Except.ok (Resp.int res.2))
  | Cmd.hget key field =>
    match aget (st.hash key) field with
    | some v => (st, Except.ok (Resp.str v))
    | none => (st, Except.error RErr.rnil)
  | Cmd.hmget key fields =>
    if fields.isEmpty then (st, Except.error (RErr.wrongArity "hmget"))
    else (st, Except.ok (Resp.optStrs (fields.map (aget (st.hash key)))))
  | Cmd.hgetall key => (st, Except.ok (Resp.pairs (st.hash key)))
  | Cmd.hkeys key => (st, Except.ok (Resp.strs ((st.hash key).map Prod.fst)))
  | Cmd.hvals key => (st, Except.ok (Resp.strs ((st.hash key).map Prod.snd)))
  | Cmd.hincrby key field n =>
    let cur := (aget (st.hash key) field).getD "0"
    match intFromStr cur with
    | Except.error _ => (st, Except.error RErr.notInt)
    | Except.ok v =>
      ({ st with hashes := aset st.hashes key (aset (st.hash key) field (intToStr (v + n))) },
       Except.ok (Resp.int (v + n)))
  | Cmd.hincrbyfloat key field num scale =>
    let cur := (aget (st.hash key) field).getD "0"
    match parseDec cur with
    | none => (st, Except.error RErr.notFloat)
    | some cv =>
      let k := max cv.2 scale
      let sum := cv.1 * (10 : Int) ^ (k - cv.2) + num * (10 : Int) ^ (k - scale)
      let out := printDec sum k
      ({ st with hashes := aset st.hashes key (aset (st.hash key) field out) },
       Except.ok (Resp.str out))
  | Cmd.expire _ _ => (st, Except.ok (Resp.boolR true))
  | Cmd.zadd key ms =>
    if ms.isEmpty then (st, Except.error (RErr.wrongArity "zadd"))
    else
      let res := ms.foldl
        (fun (p : List (String × Int) × Nat) m =>
          (aset p.1 m.2 m.1, p.2 + if (aget p.1 m.2).isNone then 1 else 0))
        (st.zset key, 0)
      ({ st with zsets := aset st.zsets key res.1 }, Except.ok (Resp.int res.2))
  | Cmd.zrem key ms =>
    if ms.isEmpty then (st, Except.error (RErr.wrongArity "zrem"))
    else
      let res := ms.foldl
        (fun (p : List (String × Int) × Nat) m =>
          (adel p.1 m, p.2 + if (aget p.1 m).isSome then 1 else 0))
        (st.zset key, 0)
      ({ st with zsets := aset st.zsets key res.1 }, Except.ok (Resp.int res.2))
  | Cmd.zrangebyscore key minB maxB offset count rev =>
    match parseBound minB, parseBound maxB with
    | Except.ok lo, Except.ok hi =>
      (st, Except.ok (Resp.zs
        (applyLimit offset count
          ((zrangeSem (st.zset key) lo hi rev).map fun p => (p.2, p.1)))))
    | _, _ => (st, Except.error RErr.badBound)
  | Cmd.zpopmin key count =>
    if count < 0 then (st, Except.error (RErr.wrongArity "zpopmin"))
    else
      let picked := (sortAsc (st.zset key)).take count.toNat
      let rest := picked.foldl (fun zl p => adel zl p.1) (st.zset key)
      ({ st with zsets := aset st.zsets key rest },
       Except.ok (Resp.zs (picked.map fun p => (p.2, p.1))))
  | Cmd.zpopmax key count =>
    if count < 0 then (st, Except.error (RErr.wrongArity "zpopmax"))
    else
      let picked := (sortAsc (st.zset key)).reverse.take count.toNat
      let rest := picked.foldl (fun zl p => adel zl p.1) (st.zset key)
      ({ st with zsets := aset st.zsets key rest },
       Except.ok (Resp.zs (picked.map fun p => (p.2, p.1))))
  | Cmd.zscore key member =>
    match aget (st.zset key) member with
    | some v => (st, Except.ok (Resp.int v))
    | none => (st, Except.error RErr.rnil)

/-- Execute a pipeline batch: every queued command runs, in order, in one
round trip (go-redis `Pipeliner.Exec` does not stop at a failing
command). -/
def execPipe (st : Store) : List Cmd → Store × List (Except RErr Resp)
  | [] => (st, [])
  | c :: cs =>
    let r := execCmd st c
    let rs := execPipe r.1 cs
    (rs.1, r.2 :: rs.2)

/-- First error of a batch, as go-redis `Pipeliner.Exec` reports it. -/
def firstErr (rs : List (Except RErr Resp)) : Option RErr :=
  rs.findSome? fun r =>
    match r with
    | Except.error e => some e
    | Except.ok _ => none

/-- The integer value of a queued command's reply after `Exec`
(go-redis `IntCmd.Val`, zero when the command failed). -/
def respIntAt (rs : List (Except RErr Resp)) : Int :=
  match rs with
  | Except.ok (Resp.int n) :: _ => n
  | _ => 0

/-- The string value of a queued command's reply after `Exec`. -/
def respStrAt (rs : List (Except RErr Resp)) : String :=
  match rs with
  | Except.ok (Resp.str s) :: _ => s
  | _ => ""

/-! ## `HashMap[K, V]` (`src/redisx/hash_map.go`)

Each method takes the model `Store` in place of the client handle and the
codecs in place of `typex`'s dynamic dispatch (spec §9: tagged
capabilities).  Go's `(T, error)` results become `Except RErr T`; methods
whose only result is `error` return `Store × Option RErr`.  Go maps in
signatures become association lists in iteration order. -/

structure HashMap (K V : Type) where
  Key : String
deriving DecidableEq

def setBatch {K V : Type} (h : HashMap K V) (ck : Codec K) (cv : Codec V)
    (field : K) (value : V) (expire : Int) : List Cmd :=
  [Cmd.hset h.Key [(ck.toStr field, cv.toStr value)]] ++
    (if 0 < expire then [Cmd.expire h.Key expire] else [])

def HashMap.Set {K V : Type} (h : HashMap K V) (ck : Codec K) (cv : Codec V)
    (st : Store) (field : K) (value : V) (expire : Int) : Store × Option RErr :=
  let r := execPipe st (setBatch h ck cv field value expire)
  (r.1, firstErr r.2)

def setMultiBatch {K V : Type} (h : HashMap K V) (ck : Codec K) (cv : Codec V)
    (fields : List (K × V)) (expire : Int) : List Cmd :=
  [Cmd.hset h.Key (fields.map fun kv => (ck.toStr kv.1, cv.toStr kv.2))] ++
    (if 0 < expire then [Cmd.expire h.Key expire] else [])

def HashMap.SetMulti {K V : Type} (h : HashMap K V) (ck : Codec K) (cv : Codec V)
    (st : Store) (fields : List (K × V)) (expire : Int) : Store × Option RErr :=
  if fields.isEmpty then (st, none)
  else
    let r := execPipe st (setMultiBatch h ck cv fields expire)
    (r.1, firstErr r.2)

def HashMap.Get {K V : Type} (h : HashMap K V) (ck : Codec K) (cv : Codec V)
    (st : Store) (field : K) : Except RErr V :=
  match (execCmd st (Cmd.hget h.Key (ck.toStr field))).2 with
  | Except.error RErr.rnil => Except.ok cv.zero
  | Except.error e => Except.error e
  | Except.ok (Resp.str s) => (cv.toAnyE s).mapError RErr.conv
  | Except.ok _ => Except.error RErr.badResp

/-- The decode loop of `GetMulti` (hash_map.go lines 85–93): skip absent
entries, abort on the first conversion failure. -/
def decodeOptPairs {K V : Type} (cv : Codec V) :
    List (K × Option String) → Except RErr (List (K × V))
  | [] => Except.ok []
  | (_, none) :: t => decodeOptPairs cv t
  | (k, some s) :: t =>
    match cv.toAnyE s with
    | Except.error e => Except.error (RErr.conv e)
    | Except.ok v => (decodeOptPairs cv t).map fun r => (k, v) :: r

def HashMap.GetMulti {K V : Type} (h : HashMap K V) (ck : Codec K) (cv : Codec V)
    (st : Store) (fields : List K) : Except RErr (List (K × V)) :=
  if fields.isEmpty then Except.ok []
  else
    match (execCmd st (Cmd.hmget h.Key (fields.map ck.toStr))).2 with
    | Except.error e => Except.error e
    | Except.ok (Resp.optStrs vals) => decodeOptPairs cv (fields.zip vals)
    | Except.ok _ => Except.error RErr.badResp

/-- The decode loop of `GetAll` (hash_map.go lines 106–116): decode key
and value of each entry, abort on the first conversion failure. -/
def decodePairs {K V : Type} (ck : Codec K) (cv : Codec V) :
    List (String × String) → Except RErr (List (K × V))
  | [] => Except.ok []
  | (ks, vs) :: t =>
    match ck.toAnyE ks with
    | Except.error e => Except.error (RErr.conv e)
    | Except.ok k =>
      match cv.toAnyE vs with
      | Except.error e => Except.error (RErr.conv e)
      | Except.ok v => (decodePairs ck cv t).map fun r => (k, v) :: r

def HashMap.GetAll {K V : Type} (h : HashMap K V) (ck : Codec K) (cv : Codec V)
    (st : Store) : Except RErr (List (K × V)) :=
  match (execCmd st (Cmd.hgetall h.Key)).2 with
  | Except.error e => Except.error e
  | Except.ok (Resp.pairs l) => decodePairs ck cv l
  | Except.ok _ => Except.error RErr.badResp

/-- The decode loop of `Keys`/`Values` (hash_map.go lines 152–159 and
171–178): decode every string, abort on the first conversion failure. -/
def decodeList {α : Type} (c : Codec α) : List String → Except RErr (List α)
  | [] => Except.ok []
  | s :: t =>
    match c.toAnyE s with
    | Except.error e => Except.error (RErr.conv e)
    | Except.ok v => (decodeList c t).map fun r => v :: r

def HashMap.Keys {K V : Type} (h : HashMap K V) (ck : Codec K)
    (st : Store) : Except RErr (List K) :=
  match (execCmd st (Cmd.hkeys h.Key)).2 with
  | Except.error e => Except.error e
  | Except.ok (Resp.strs l) => decodeList ck l
  | Except.ok _ => Except.error RErr.badResp

def HashMap.Values {K V : Type} (h : HashMap K V) (cv : Codec V)
    (st : Store) : Except RErr (List V) :=
  match (execCmd st (Cmd.hvals h.Key)).2 with
  | Except.error e => Except.error e
  | Except.ok (Resp.strs l) => decodeList cv l
  | Except.ok _ => Except.error RErr.badResp

def incrBatch {K V : Type} (h : HashMap K V) (ck : Codec K)
    (field : K) (increment expire : Int) : List Cmd :=
  [Cmd.hincrby h.Key (ck.toStr field) increment] ++
    (if 0 < expire then [Cmd.expire h.Key expire] else [])

def HashMap.Incr {K V : Type} (h : HashMap K V) (ck : Codec K)
    (st : Store) (field : K) (increment expire : Int) : Store × Int × Option RErr :=
  let r := execPipe st (incrBatch h ck field increment expire)
  match firstErr r.2 with
  | some e => (r.1, 0, some e)
  | none => (r.1, respIntAt r.2, none)

/-- The `float64` increment of `IncrFloat` is carried as the exact decimal
`(num, scale)` of its wire form (go-redis formats the float). -/
def incrFloatBatch {K V : Type} (h : HashMap K V) (ck : Codec K)
    (field : K) (num : Int) (scale : Nat) (expire : Int) : List Cmd :=
  [Cmd.hincrbyfloat h.Key (ck.toStr field) num scale] ++
    (if 0 < expire then [Cmd.expire h.Key expire] else [])

def HashMap.IncrFloat {K V : Type} (h : HashMap K V) (ck : Codec K)
    (st : Store) (field : K) (num : Int) (scale : Nat) (expire : Int) :
    Store × (Int × Nat) × Option RErr :=
  let r := execPipe st (incrFloatBatch h ck field num scale expire)
  match firstErr r.2 with
  | some e => (r.1, (0, 0), some e)
  | none => (r.1, (parseDec (respStrAt r.2)).getD (0, 0), none)

/-! ## `ZQueue[T]` (`src/redisx/z_queue.go`) -/

structure Element (T : Type) where
  Member : T
  Score : Int
deriving DecidableEq

structure ZQueue (T : Type) where
  Key : String
  Desc : Bool
deriving DecidableEq

/-- `redisZToElement` (z_queue.go lines 34–39): note the conversion uses
`typex.ToAny`, whose result type carries no error. -/
def redisZToElement {T : Type} (c : Codec T) (z : Int × String) : Element T :=
  { Member := c.toAny z.2, Score := i64ofF64 z.1 }

def redisZToElements {T : Type} (c : Codec T) (zs : List (Int × String)) :
    List (Element T) :=
  zs.map (redisZToElement c)

def addBatch {T : Type} (q : ZQueue T) (c : Codec T)
    (member : T) (score expire : Int) : List Cmd :=
  [Cmd.zadd q.Key [(f64ofInt score, c.toStr member)]] ++
    (if 0 < expire then [Cmd.expire q.Key expire] else [])

def ZQueue.Add {T : Type} (q : ZQueue T) (c : Codec T) (st : Store)
    (member : T) (score expire : Int) : Store × Option RErr :=
  let r := execPipe st (addBatch q c member score expire)
  (r.1, firstErr r.2)

def addMultiBatch {T : Type} (q : ZQueue T) (c : Codec T)
    (elements : List (Element T)) (expire : Int) : List Cmd :=
  [Cmd.zadd q.Key (elements.map fun e => (f64ofInt e.Score, c.toStr e.Member))] ++
    (if 0 < expire then [Cmd.expire q.Key expire] else [])

/-- `AddMulti` (z_queue.go lines 65–80).  Unlike `SetMulti`, there is no
empty-input fast path: an empty `elements` still queues a `ZADD` carrying
zero members. -/
def ZQueue.AddMulti {T : Type} (q : ZQueue T) (c : Codec T) (st : Store)
    (elements : List (Element T)) (expire : Int) : Store × Option RErr :=
  let r := execPipe st (addMultiBatch q c elements expire)
  (r.1, firstErr r.2)

def ZQueue.Remove {T : Type} (q : ZQueue T) (c : Codec T) (st : Store)
    (member : T) : Store × Option RErr :=
  let r := execCmd st (Cmd.zrem q.Key [c.toStr member])
  (r.1, match r.2 with | Except.error e => some e | Except.ok _ => none)

/-- `RemoveMulti` (z_queue.go lines 88–94).  No empty-input fast path: an
empty `members` still issues a `ZREM` carrying zero members. -/
def ZQueue.RemoveMulti {T : Type} (q : ZQueue T) (c : Codec T) (st : Store)
    (members : List T) : Store × Option RErr :=
  let r := execCmd st (Cmd.zrem q.Key (members.map c.toStr))
  (r.1, match r.2 with | Except.error e => some e | Except.ok _ => none)

/-- z_queue.go lines 146–149: `minS := "-inf"; if minScore != -1 { minS =
typex.ToString(minScore) }`. -/
def minBoundStr (minScore : Int) : String :=
  if minScore ≠ -1 then intToStr minScore else "-inf"

/-- z_queue.go lines 151–154: `maxS := "+inf"; if maxScore != -1 { maxS =
typex.ToString(maxScore) }`. -/
def maxBoundStr (maxScore : Int) : String :=
  if maxScore ≠ -1 then intToStr maxScore else "+inf"

/-- The store request issued by `rangeByScoreInternal`: the `rev` flag
records whether the `ZREVRANGEBYSCORE` form was chosen (z_queue.go lines
159–173). -/
def rangeCmd {T : Type} (q : ZQueue T)
    (minScore maxScore offset count : Int) (desc : Bool) : Cmd :=
  Cmd.zrangebyscore q.Key (minBoundStr minScore) (maxBoundStr maxScore)
    offset count desc

/-- `rangeByScoreInternal` (z_queue.go lines 145–179).  Returns the
adapter (modelling the pointer receiver's state after the call), the
issued store request, and the result. -/
def ZQueue.rangeByScoreInternal {T : Type} (q : ZQueue T) (c : Codec T) (st : Store)
    (minScore maxScore offset count : Int) (desc : Bool) :
    ZQueue T × Cmd × Except RErr (List (Element T)) :=
  let cmd := rangeCmd q minScore maxScore offset count desc
  match (execCmd st cmd).2 with
  | Except.error e => (q, cmd, Except.error e)
  | Except.ok (Resp.zs zs) => (q, cmd, Except.ok (redisZToElements c zs))
  | Except.ok _ => (q, cmd, Except.error RErr.badResp)

def ZQueue.RangeByScore {T : Type} (q : ZQueue T) (c : Codec T) (st : Store)
    (minScore maxScore : Int) : ZQueue T × Cmd × Except RErr (List (Element T)) :=
  q.rangeByScoreInternal c st minScore maxScore 0 (-1) q.Desc

def ZQueue.RangeByScoreWithLimit {T : Type} (q : ZQueue T) (c : Codec T) (st : Store)
    (minScore maxScore offset count : Int) :
    ZQueue T × Cmd × Except RErr (List (Element T)) :=
  q.rangeByScoreInternal c st minScore maxScore offset count q.Desc

def ZQueue.RangeFromScore {T : Type} (q : ZQueue T) (c : Codec T) (st : Store)
    (minScore : Int) : ZQueue T × Cmd × Except RErr (List (Element T)) :=
  q.rangeByScoreInternal c st minScore (-1) 0 (-1) q.Desc

def ZQueue.RangeToScore {T : Type} (q : ZQueue T) (c : Codec T) (st : Store)
    (maxScore : Int) : ZQueue T × Cmd × Except RErr (List (Element T)) :=
  q.rangeByScoreInternal c st (-1) maxScore 0 (-1) q.Desc

def ZQueue.RangeByScoreRev {T : Type} (q : ZQueue T) (c : Codec T) (st : Store)
    (minScore maxScore : Int) : ZQueue T × Cmd × Except RErr (List (Element T)) :=
  q.rangeByScoreInternal c st minScore maxScore 0 (-1) (!q.Desc)

def ZQueue.RangeByScoreWithLimitRev {T : Type} (q : ZQueue T) (c : Codec T) (st : Store)
    (minScore maxScore offset count : Int) :
    ZQueue T × Cmd × Except RErr (List (Element T)) :=
  q.rangeByScoreInternal c st minScore maxScore offset count (!q.Desc)

def ZQueue.RangeFromScoreRev {T : Type} (q : ZQueue T) (c : Codec T) (st : Store)
    (minScore : Int) : ZQueue T × Cmd × Except RErr (List (Element T)) :=
  q.rangeByScoreInternal c st minScore (-1) 0 (-1) (!q.Desc)

def ZQueue.RangeToScoreRev {T : Type} (q : ZQueue T) (c : Codec T) (st : Store)
    (maxScore : Int) : ZQueue T × Cmd × Except RErr (List (Element T)) :=
  q.rangeByScoreInternal c st (-1) maxScore 0 (-1) (!q.Desc)

def ZQueue.PopMin {T : Type} (q : ZQueue T) (c : Codec T) (st : Store) :
    Store × Except RErr (Option (Element T)) :=
  let r := execCmd st (Cmd.zpopmin q.Key 1)
  match r.2 with
  | Except.error e => (r.1, Except.error e)
  | Except.ok (Resp.zs []) => (r.1, Except.ok none)
  | Except.ok (Resp.zs (z :: _)) => (r.1, Except.ok (some (redisZToElement c z)))
  | Except.ok _ => (r.1, Except.error RErr.badResp)

def ZQueue.PopMax {T : Type} (q : ZQueue T) (c : Codec T) (st : Store) :
    Store × Except RErr (Option (Element T)) :=
  let r := execCmd st (Cmd.zpopmax q.Key 1)
  match r.2 with
  | Except.error e => (r.1, Except.error e)
  | Except.ok (Resp.zs []) => (r.1, Except.ok none)
  | Except.ok (Resp.zs (z :: _)) => (r.1, Except.ok (some (redisZToElement c z)))
  | Except.ok _ => (r.1, Except.error RErr.badResp)

def ZQueue.PopMinMulti {T : Type} (q : ZQueue T) (c : Codec T) (st : Store)
    (count : Int) : Store × Except RErr (List (Element T)) :=
  let r := execCmd st (Cmd.zpopmin q.Key count)
  match r.2 with
  | Except.error e => (r.1, Except.error e)
  | Except.ok (Resp.zs zs) => (r.1, Except.ok (redisZToElements c zs))
  | Except.ok _ => (r.1, Except.error RErr.badResp)

def ZQueue.PopMaxMulti {T : Type} (q : ZQueue T) (c : Codec T) (st : Store)
    (count : Int) : Store × Except RErr (List (Element T)) :=
  let r := execCmd st (Cmd.zpopmax q.Key count)
  match r.2 with
  | Except.error e => (r.1, Except.error e)
  | Except.ok (Resp.zs zs) => (r.1, Except.ok (redisZToElements c zs))
  | Except.ok _ => (r.1, Except.error RErr.badResp)

/-- `Score` (z_queue.go lines 243–249): the `redis.Nil` error for an
absent member is propagated, unlike `HashMap.Get`. -/
def ZQueue.Score {T : Type} (q : ZQueue T) (c : Codec T) (st : Store)
    (member : T) : Except RErr Int :=
  match (execCmd st (Cmd.zscore q.Key (c.toStr member))).2 with
  | Except.error e => Except.error e
  | Except.ok (Resp.int v) => Except.ok (i64ofF64 v)
  | Except.ok _ => Except.error RErr.badResp

/-! # Proofs -/

/-! ### Round-trip lemmas for the decimal codec -/

theorem natDigitsAux_eq (fuel n : Nat) (h : n ≤ fuel) :
    natDigitsAux fuel n = Nat.digits 10 n := by
  induction fuel generalizing n with
  | zero =>
    have hn : n = 0 := Nat.le_zero.mp h
    subst hn
    simp [natDigitsAux]
  | succ fuel ih =>
    cases n with
    | zero => simp [natDigitsAux]
    | succ m =>
      rw [natDigitsAux, ih ((m + 1) / 10) (by omega),
        ← Nat.digits_def' (by norm_num : 1 < 10) (Nat.succ_pos m)]

theorem natDigits_eq (n : Nat) : natDigits n = Nat.digits 10 n :=
  natDigitsAux_eq n n le_rfl

theorem digit_char_inv {d : Nat} (hd : d < 10) :
    charToDigit (digitToChar d) = d ∧ isDigitChar (digitToChar d) = true := by
  interval_cases d <;> exact ⟨rfl, rfl⟩

theorem natChars_ne_nil (n : Nat) : natChars n ≠ [] := by
  unfold natChars
  split
  · simp
  · rename_i h
    simp [natDigits_eq, List.reverse_eq_nil_iff, Nat.digits_ne_nil_iff_ne_zero, h]

theorem natChars_all_digits (n : Nat) : (natChars n).all isDigitChar = true := by
  rw [List.all_eq_true]
  intro c hc
  unfold natChars at hc
  split at hc
  · simp at hc
    subst hc
    rfl
  · rw [natDigits_eq] at hc
    rw [List.mem_reverse, List.mem_map] at hc
    obtain ⟨d, hd, rfl⟩ := hc
    exact (digit_char_inv (Nat.digits_lt_base (by norm_num) hd)).2

theorem charsToNat_natChars (n : Nat) : charsToNat (natChars n) = n := by
  unfold natChars
  split
  · rename_i h
    subst h
    rfl
  · rename_i h
    unfold charsToNat
    rw [natDigits_eq, List.map_reverse, List.reverse_reverse, List.map_map]
    have hmap : (Nat.digits 10 n).map (charToDigit ∘ digitToChar) =
        Nat.digits 10 n := by
      conv_rhs => rw [← List.map_id (Nat.digits 10 n)]
      apply List.map_congr_left
      intro d hd
      exact (digit_char_inv (Nat.digits_lt_base (by norm_num) hd)).1
    rw [hmap, Nat.ofDigits_digits]

theorem natFromChars_natChars (n : Nat) : natFromChars (natChars n) = some n := by
  have hne := natChars_ne_nil n
  have hall := natChars_all_digits n
  have hval := charsToNat_natChars n
  unfold natFromChars
  match h : natChars n with
  | [] => exact absurd h hne
  | c :: rest =>
    rw [h] at hall hval
    simp only [hall, if_true, hval]

theorem natFromStr_natToStr (n : Nat) : natFromStr (natToStr n) = Except.ok n := by
  unfold natFromStr natToStr
  show (match natFromChars (natChars n) with
        | some m => Except.ok m
        | none => Except.error "not a natural number") = Except.ok n
  rw [natFromChars_natChars]

theorem natChars_head_digit (n : Nat) :
    ∀ c rest, natChars n = c :: rest → isDigitChar c = true := by
  intro c rest h
  have hall := natChars_all_digits n
  rw [h, List.all_eq_true] at hall
  exact hall c (List.mem_cons_self c rest)

theorem intFromStr_intToStr (n : Int) : intFromStr (intToStr n) = Except.ok n := by
  unfold intFromStr intToStr
  show intFromChars (intChars n) = Except.ok n
  unfold intChars
  split
  · rename_i hneg
    show intFromChars ('-' :: natChars n.natAbs) = Except.ok n
    unfold intFromChars
    simp only [if_pos rfl, natFromChars_natChars]
    have hval : -((n.natAbs : Int)) = n := by omega
    rw [hval]
    simp
  · rename_i hpos
    match h : natChars n.toNat with
    | [] => exact absurd h (natChars_ne_nil n.toNat)
    | c :: rest =>
      have hc : isDigitChar c = true := natChars_head_digit n.toNat c rest h
      have hcne : ¬ (c = '-') := by
        intro hceq
        subst hceq
        exact absurd hc (by decide)
      show intFromChars (c :: rest) = Except.ok n
      simp only [intFromChars, if_neg hcne, ← h, natFromChars_natChars]
      have hval : ((n.toNat : Int)) = n := by omega
      rw [hval]


/-! ### Float64 conversion lemmas -/

theorem f64ofInt_eq_self {s : Int} (hs : s.natAbs ≤ 2 ^ 53) : f64ofInt s = s := by
  unfold f64ofInt ulpExp
  rw [if_pos hs]
  unfold roundMul
  have h1 : Int.emod s 1 = 0 := Int.emod_one s
  simp [h1]

theorem i64ofF64_f64ofInt {s : Int} (hs : s.natAbs ≤ 2 ^ 53) :
    i64ofF64 (f64ofInt s) = s := by
  rw [f64ofInt_eq_self hs]
  unfold i64ofF64
  rw [if_neg (by omega)]


/-! ### Association-list lemmas -/

theorem aget_aset_self {β : Type} (l : List (String × β)) (k : String) (v : β) :
    aget (aset l k v) k = some v := by
  induction l with
  | nil => simp [aset, aget]
  | cons p t ih =>
    obtain ⟨k', v'⟩ := p
    by_cases h : k' = k
    · simp [aset, aget, h]
    · simp [aset, aget, h, ih]


/-! ### Bound-string lemmas -/

theorem mem_natChars_digit {c : Char} {n : Nat} (h : c ∈ natChars n) :
    isDigitChar c = true := by
  have hall := natChars_all_digits n
  rw [List.all_eq_true] at hall
  exact hall c h

theorem not_mem_intChars {c : Char} (hc : isDigitChar c = false)
    (hcm : c ≠ '-') (m : Int) : c ∉ intChars m := by
  intro hmem
  unfold intChars at hmem
  split at hmem
  · rcases List.mem_cons.mp hmem with h1 | h2
    · exact hcm h1
    · rw [mem_natChars_digit h2] at hc
      cases hc
  · rw [mem_natChars_digit hmem] at hc
    cases hc

theorem intToStr_ne_infs (m : Int) :
    intToStr m ≠ "-inf" ∧ intToStr m ≠ "+inf" ∧ intToStr m ≠ "inf" := by
  refine ⟨?_, ?_, ?_⟩ <;> intro h
  · have hd : intChars m = ['-', 'i', 'n', 'f'] := congrArg String.data h
    have : 'i' ∈ intChars m := by rw [hd]; decide
    exact not_mem_intChars (by decide) (by decide) m this
  · have hd : intChars m = ['+', 'i', 'n', 'f'] := congrArg String.data h
    have : '+' ∈ intChars m := by rw [hd]; decide
    exact not_mem_intChars (by decide) (by decide) m this
  · have hd : intChars m = ['i', 'n', 'f'] := congrArg String.data h
    have : 'i' ∈ intChars m := by rw [hd]; decide
    exact not_mem_intChars (by decide) (by decide) m this

theorem parseBound_intToStr (m : Int) :
    parseBound (intToStr m) = Except.ok (Bnd.fin m) := by
  have hne := intToStr_ne_infs m
  simp only [parseBound, if_neg hne.1, if_neg (not_or.mpr ⟨hne.2.1, hne.2.2⟩),
    intFromStr_intToStr]

/-! ### Frame lemmas for `rangeByScoreInternal` -/

theorem rangeInternal_fst {T : Type} (q : ZQueue T) (c : Codec T) (st : Store)
    (a b o n : Int) (d : Bool) : (q.rangeByScoreInternal c st a b o n d).1 = q := by
  unfold ZQueue.rangeByScoreInternal
  dsimp only
  split <;> rfl

theorem rangeInternal_cmd {T : Type} (q : ZQueue T) (c : Codec T) (st : Store)
    (a b o n : Int) (d : Bool) :
    (q.rangeByScoreInternal c st a b o n d).2.1 = rangeCmd q a b o n d := by
  unfold ZQueue.rangeByScoreInternal
  dsimp only
  split <;> rfl

/-! ## The claims -/

/-- C1: round-trip law of the codec — for every value of a supported type
(integers, naturals, booleans and strings in this model of `typex`),
decoding the encoded wire string yields the value back:
`toAnyE (toStr v) = ok v`. -/
theorem C1_codec_roundtrip :
    (∀ n : Int, intCodec.toAnyE (intCodec.toStr n) = Except.ok n) ∧
    (∀ n : Nat, natCodec.toAnyE (natCodec.toStr n) = Except.ok n) ∧
    (∀ b : Bool, boolCodec.toAnyE (boolCodec.toStr b) = Except.ok b) ∧
    (∀ s : String, strCodec.toAnyE (strCodec.toStr s) = Except.ok s) :=
  ⟨intFromStr_intToStr, natFromStr_natToStr, by decide, fun _ => rfl⟩

/-- C3: in every range-by-score request, a score bound equal to the
sentinel `-1` is sent as `"-inf"` (minimum) or `"+inf"` (maximum), which
the store parses as the unbounded bound satisfied by every score; and
`count = -1` disables the limit on the number of returned elements. -/
theorem C3_sentinel_bounds_and_count {T : Type} (q : ZQueue T) :
    (∀ maxScore offset count : Int, ∀ desc : Bool,
        rangeCmd q (-1) maxScore offset count desc =
          Cmd.zrangebyscore q.Key "-inf" (maxBoundStr maxScore) offset count desc) ∧
    (∀ minScore offset count : Int, ∀ desc : Bool,
        rangeCmd q minScore (-1) offset count desc =
          Cmd.zrangebyscore q.Key (minBoundStr minScore) "+inf" offset count desc) ∧
    (parseBound "-inf" = Except.ok Bnd.ninf ∧ ∀ s : Int, geMin Bnd.ninf s = true) ∧
    (parseBound "+inf" = Except.ok Bnd.pinf ∧ ∀ s : Int, leMax Bnd.pinf s = true) ∧
    (∀ (α : Type) (l : List α) (offset : Int),
        applyLimit offset (-1) l = l.drop offset.toNat) := by
  refine ⟨?_, ?_, ⟨by decide, fun s => rfl⟩, ⟨by decide, fun s => rfl⟩, ?_⟩
  · intro maxScore offset count desc
    simp [rangeCmd, minBoundStr]
  · intro minScore offset count desc
    simp [rangeCmd, maxBoundStr]
  · intro α l offset
    rw [applyLimit, if_pos (by decide : (-1 : Int) < 0)]

/-- C4: the base range calls pass the adapter's stored `Desc` flag as the
direction of the issued store request, the `Rev` variants pass its
logical negation, and every range call leaves the adapter unchanged. -/
theorem C4_range_direction_and_frame {T : Type} (q : ZQueue T) (c : Codec T)
    (st : Store) :
    (∀ a b : Int, (q.RangeByScore c st a b).1 = q ∧
        (q.RangeByScore c st a b).2.1 = rangeCmd q a b 0 (-1) q.Desc) ∧
    (∀ a b o n : Int, (q.RangeByScoreWithLimit c st a b o n).1 = q ∧
        (q.RangeByScoreWithLimit c st a b o n).2.1 = rangeCmd q a b o n q.Desc) ∧
    (∀ a : Int, (q.RangeFromScore c st a).1 = q ∧
        (q.RangeFromScore c st a).2.1 = rangeCmd q a (-1) 0 (-1) q.Desc) ∧
    (∀ b : Int, (q.RangeToScore c st b).1 = q ∧
        (q.RangeToScore c st b).2.1 = rangeCmd q (-1) b 0 (-1) q.Desc) ∧
    (∀ a b : Int, (q.RangeByScoreRev c st a b).1 = q ∧
        (q.RangeByScoreRev c st a b).2.1 = rangeCmd q a b 0 (-1) (!q.Desc)) ∧
    (∀ a b o n : Int, (q.RangeByScoreWithLimitRev c st a b o n).1 = q ∧
        (q.RangeByScoreWithLimitRev c st a b o n).2.1 = rangeCmd q a b o n (!q.Desc)) ∧
    (∀ a : Int, (q.RangeFromScoreRev c st a).1 = q ∧
        (q.RangeFromScoreRev c st a).2.1 = rangeCmd q a (-1) 0 (-1) (!q.Desc)) ∧
    (∀ b : Int, (q.RangeToScoreRev c st b).1 = q ∧
        (q.RangeToScoreRev c st b).2.1 = rangeCmd q (-1) b 0 (-1) (!q.Desc)) :=
  ⟨fun a b => ⟨rangeInternal_fst q c st a b 0 (-1) q.Desc,
      rangeInternal_cmd q c st a b 0 (-1) q.Desc⟩,
   fun a b o n => ⟨rangeInternal_fst q c st a b o n q.Desc,
      rangeInternal_cmd q c st a b o n q.Desc⟩,
   fun a => ⟨rangeInternal_fst q c st a (-1) 0 (-1) q.Desc,
      rangeInternal_cmd q c st a (-1) 0 (-1) q.Desc⟩,
   fun b => ⟨rangeInternal_fst q c st (-1) b 0 (-1) q.Desc,
      rangeInternal_cmd q c st (-1) b 0 (-1) q.Desc⟩,
   fun a b => ⟨rangeInternal_fst q c st a b 0 (-1) (!q.Desc),
      rangeInternal_cmd q c st a b 0 (-1) (!q.Desc)⟩,
   fun a b o n => ⟨rangeInternal_fst q c st a b o n (!q.Desc),
      rangeInternal_cmd q c st a b o n (!q.Desc)⟩,
   fun a => ⟨rangeInternal_fst q c st a (-1) 0 (-1) (!q.Desc),
      rangeInternal_cmd q c st a (-1) 0 (-1) (!q.Desc)⟩,
   fun b => ⟨rangeInternal_fst q c st (-1) b 0 (-1) (!q.Desc),
      rangeInternal_cmd q c st (-1) b 0 (-1) (!q.Desc)⟩⟩

/-- C10: a `minScore` equal to `-1` is sent as `"-inf"` and a `maxScore`
equal to `-1` as `"+inf"`; no range call can express `-1` as a finite
bound — the parsed bound of the sent string is never `fin (-1)` — and
concretely `RangeByScore (-1) 10` returns scores below `-1` as well. -/
theorem C10_minus_one_never_finite :
    (minBoundStr (-1) = "-inf" ∧ maxBoundStr (-1) = "+inf") ∧
    (∀ m : Int, parseBound (minBoundStr m) ≠ Except.ok (Bnd.fin (-1)) ∧
        parseBound (maxBoundStr m) ≠ Except.ok (Bnd.fin (-1))) ∧
    (ZQueue.RangeByScore (⟨"q", false⟩ : ZQueue String) strCodec
        ⟨[], [("q", [("a", -5), ("b", 5)])]⟩ (-1) 10).2.2 =
      Except.ok [⟨"a", -5⟩, ⟨"b", 5⟩] := by
  refine ⟨⟨rfl, rfl⟩, ?_, by decide⟩
  intro m
  by_cases hm : m = -1
  · subst hm
    exact ⟨by decide, by decide⟩
  · constructor <;> intro h
    · rw [minBoundStr, if_pos hm, parseBound_intToStr] at h
      simp at h
      exact hm h
    · rw [maxBoundStr, if_pos hm, parseBound_intToStr] at h
      simp at h
      exact hm h

/-- C10 witness: the never-finite-(-1) property evaluated at the concrete
bound 7. -/
theorem C10_minus_one_never_finite_witness :
    parseBound (minBoundStr 7) = Except.ok (Bnd.fin 7) ∧
    parseBound (minBoundStr 7) ≠ Except.ok (Bnd.fin (-1)) :=
  ⟨by decide, (C10_minus_one_never_finite.2.1 7).1⟩

/-- C2: every write operation (HashMap `Set`, `SetMulti`, `Incr`,
`IncrFloat`; ZQueue `Add`, `AddMulti`) with ttl > 0 queues the value
write followed by an expiry refresh of the container key in one batch,
executed as a single pipeline whose first error is the returned error;
with ttl ≤ 0 the batch holds only the value write and no expiry command. -/
theorem C2_write_expiry_batch {K V T : Type} (h : HashMap K V) (q : ZQueue T)
    (ck : Codec K) (cv : Codec V) (c : Codec T) :
    (∀ (st : Store) (f : K) (v : V) (ttl : Int),
      (0 < ttl → setBatch h ck cv f v ttl =
          [Cmd.hset h.Key [(ck.toStr f, cv.toStr v)], Cmd.expire h.Key ttl]) ∧
      (ttl ≤ 0 → setBatch h ck cv f v ttl = [Cmd.hset h.Key [(ck.toStr f, cv.toStr v)]] ∧
          ∀ t, Cmd.expire h.Key t ∉ setBatch h ck cv f v ttl) ∧
      (h.Set ck cv st f v ttl).2 = firstErr (execPipe st (setBatch h ck cv f v ttl)).2) ∧
    (∀ (st : Store) (fields : List (K × V)) (ttl : Int), fields ≠ [] →
      (0 < ttl → setMultiBatch h ck cv fields ttl =
          [Cmd.hset h.Key (fields.map fun kv => (ck.toStr kv.1, cv.toStr kv.2)),
           Cmd.expire h.Key ttl]) ∧
      (ttl ≤ 0 → setMultiBatch h ck cv fields ttl =
          [Cmd.hset h.Key (fields.map fun kv => (ck.toStr kv.1, cv.toStr kv.2))] ∧
          ∀ t, Cmd.expire h.Key t ∉ setMultiBatch h ck cv fields ttl) ∧
      (h.SetMulti ck cv st fields ttl).2 =
        firstErr (execPipe st (setMultiBatch h ck cv fields ttl)).2) ∧
    (∀ (st : Store) (f : K) (inc ttl : Int),
      (0 < ttl → incrBatch h ck f inc ttl =
          [Cmd.hincrby h.Key (ck.toStr f) inc, Cmd.expire h.Key ttl]) ∧
      (ttl ≤ 0 → incrBatch h ck f inc ttl = [Cmd.hincrby h.Key (ck.toStr f) inc] ∧
          ∀ t, Cmd.expire h.Key t ∉ incrBatch h ck f inc ttl) ∧
      (HashMap.Incr (V := V) h ck st f inc ttl).2.2 =
        firstErr (execPipe st (incrBatch h ck f inc ttl)).2) ∧
    (∀ (st : Store) (f : K) (num : Int) (scale : Nat) (ttl : Int),
      (0 < ttl → incrFloatBatch h ck f num scale ttl =
          [Cmd.hincrbyfloat h.Key (ck.toStr f) num scale, Cmd.expire h.Key ttl]) ∧
      (ttl ≤ 0 → incrFloatBatch h ck f num scale ttl =
          [Cmd.hincrbyfloat h.Key (ck.toStr f) num scale] ∧
          ∀ t, Cmd.expire h.Key t ∉ incrFloatBatch h ck f num scale ttl) ∧
      (HashMap.IncrFloat (V := V) h ck st f num scale ttl).2.2 =
        firstErr (execPipe st (incrFloatBatch h ck f num scale ttl)).2) ∧
    (∀ (st : Store) (m : T) (s ttl : Int),
      (0 < ttl → addBatch q c m s ttl =
          [Cmd.zadd q.Key [(f64ofInt s, c.toStr m)], Cmd.expire q.Key ttl]) ∧
      (ttl ≤ 0 → addBatch q c m s ttl = [Cmd.zadd q.Key [(f64ofInt s, c.toStr m)]] ∧
          ∀ t, Cmd.expire q.Key t ∉ addBatch q c m s ttl) ∧
      (q.Add c st m s ttl).2 = firstErr (execPipe st (addBatch q c m s ttl)).2) ∧
    (∀ (st : Store) (es : List (Element T)) (ttl : Int),
      (0 < ttl → addMultiBatch q c es ttl =
          [Cmd.zadd q.Key (es.map fun e => (f64ofInt e.Score, c.toStr e.Member)),
           Cmd.expire q.Key ttl]) ∧
      (ttl ≤ 0 → addMultiBatch q c es ttl =
          [Cmd.zadd q.Key (es.map fun e => (f64ofInt e.Score, c.toStr e.Member))] ∧
          ∀ t, Cmd.expire q.Key t ∉ addMultiBatch q c es ttl) ∧
      (q.AddMulti c st es ttl).2 = firstErr (execPipe st (addMultiBatch q c es ttl)).2) := by
  refine ⟨?_, ?_, ?_, ?_, ?_, ?_⟩
  · intro st f v ttl
    refine ⟨fun ht => by simp [setBatch, ht], fun ht => ⟨?_, ?_⟩, rfl⟩
    · simp [setBatch, show ¬ 0 < ttl by omega]
    · intro t hmem
      simp [setBatch, show ¬ 0 < ttl by omega] at hmem
  · intro st fields ttl hne
    have hie : fields.isEmpty = false := by
      cases fields with
      | nil => exact absurd rfl hne
      | cons a t => rfl
    refine ⟨fun ht => by simp [setMultiBatch, ht], fun ht => ⟨?_, ?_⟩, ?_⟩
    · simp [setMultiBatch, show ¬ 0 < ttl by omega]
    · intro t hmem
      simp [setMultiBatch, show ¬ 0 < ttl by omega] at hmem
    · simp [HashMap.SetMulti, hie]
  · intro st f inc ttl
    refine ⟨fun ht => by simp [incrBatch, ht], fun ht => ⟨?_, ?_⟩, ?_⟩
    · simp [incrBatch, show ¬ 0 < ttl by omega]
    · intro t hmem
      simp [incrBatch, show ¬ 0 < ttl by omega] at hmem
    · cases hE : firstErr (execPipe st (incrBatch h ck f inc ttl)).2 with
      | none => simp [HashMap.Incr, hE]
      | some e => simp [HashMap.Incr, hE]
  · intro st f num scale ttl
    refine ⟨fun ht => by simp [incrFloatBatch, ht], fun ht => ⟨?_, ?_⟩, ?_⟩
    · simp [incrFloatBatch, show ¬ 0 < ttl by omega]
    · intro t hmem
      simp [incrFloatBatch, show ¬ 0 < ttl by omega] at hmem
    · cases hE : firstErr (execPipe st (incrFloatBatch h ck f num scale ttl)).2 with
      | none => simp [HashMap.IncrFloat, hE]
      | some e => simp [HashMap.IncrFloat, hE]
  · intro st m s ttl
    refine ⟨fun ht => by simp [addBatch, ht], fun ht => ⟨?_, ?_⟩, rfl⟩
    · simp [addBatch, show ¬ 0 < ttl by omega]
    · intro t hmem
      simp [addBatch, show ¬ 0 < ttl by omega] at hmem
  · intro st es ttl
    refine ⟨fun ht => by simp [addMultiBatch, ht], fun ht => ⟨?_, ?_⟩, rfl⟩
    · simp [addMultiBatch, show ¬ 0 < ttl by omega]
    · intro t hmem
      simp [addMultiBatch, show ¬ 0 < ttl by omega] at hmem

/-- C2 witness: the batching contract evaluated at concrete inputs. -/
theorem C2_write_expiry_batch_witness :
    setBatch (⟨"h"⟩ : HashMap Int Int) intCodec intCodec 1 2 5 =
      [Cmd.hset "h" [("1", "2")], Cmd.expire "h" 5] ∧
    addBatch (⟨"z", false⟩ : ZQueue Int) intCodec 7 3 0 = [Cmd.zadd "z" [(3, "7")]] := by
  constructor
  · have hmain := ((C2_write_expiry_batch (⟨"h"⟩ : HashMap Int Int)
      (⟨"z", false⟩ : ZQueue Int) intCodec intCodec intCodec).1 ⟨[], []⟩ 1 2 5).1
      (by norm_num)
    rw [hmain]
    decide
  · have hmain := (((C2_write_expiry_batch (⟨"h"⟩ : HashMap Int Int)
      (⟨"z", false⟩ : ZQueue Int) intCodec intCodec intCodec).2.2.2.2.1 ⟨[], []⟩ 7 3 0).2.1
      (by norm_num)).1
    rw [hmain]
    decide

/-! ### Decode-loop lemmas -/

theorem exceptOk_map {ε α β : Type} (f : α → β) (e : Except ε α) :
    exceptOk (e.map f) = exceptOk e := by
  cases e <;> rfl

theorem decodePairs_err {K V : Type} (ck : Codec K) (cv : Codec V)
    (l : List (String × String)) (ks vs : String) (hmem : (ks, vs) ∈ l)
    (hfail : exceptOk (ck.toAnyE ks) = false ∨ exceptOk (cv.toAnyE vs) = false) :
    exceptOk (decodePairs ck cv l) = false := by
  induction l with
  | nil => cases hmem
  | cons p t ih =>
    obtain ⟨a, b⟩ := p
    simp only [decodePairs]
    cases hk : ck.toAnyE a with
    | error e => rfl
    | ok k =>
      cases hv : cv.toAnyE b with
      | error e => rfl
      | ok v =>
        rcases List.mem_cons.mp hmem with heq | htail
        · injection heq with h1 h2
          subst h1
          subst h2
          rcases hfail with hf | hf
          · rw [hk] at hf
            cases hf
          · rw [hv] at hf
            cases hf
        · rw [exceptOk_map]
          exact ih htail

theorem decodeOptPairs_err {K V : Type} (cv : Codec V)
    (l : List (K × Option String)) (k : K) (s : String) (hmem : (k, some s) ∈ l)
    (hfail : exceptOk (cv.toAnyE s) = false) :
    exceptOk (decodeOptPairs cv l) = false := by
  induction l with
  | nil => cases hmem
  | cons p t ih =>
    obtain ⟨a, ob⟩ := p
    cases ob with
    | none =>
      simp only [decodeOptPairs]
      rcases List.mem_cons.mp hmem with heq | htail
      · cases heq
      · exact ih htail
    | some b =>
      simp only [decodeOptPairs]
      cases hv : cv.toAnyE b with
      | error e => rfl
      | ok v =>
        rcases List.mem_cons.mp hmem with heq | htail
        · injection heq with h1 h2
          injection h2 with h2
          subst h2
          rw [hv] at hfail
          cases hfail
        · rw [exceptOk_map]
          exact ih htail

theorem decodeList_err {α : Type} (c : Codec α) (l : List String) (s : String)
    (hmem : s ∈ l) (hfail : exceptOk (c.toAnyE s) = false) :
    exceptOk (decodeList c l) = false := by
  induction l with
  | nil => cases hmem
  | cons a t ih =>
    simp only [decodeList]
    cases ha : c.toAnyE a with
    | error e => rfl
    | ok v =>
      rcases List.mem_cons.mp hmem with heq | htail
      · subst heq
        rw [ha] at hfail
        cases hfail
      · rw [exceptOk_map]
        exact ih htail

theorem zip_map_self_mem {α β : Type} (g : α → β) {x : α} {l : List α}
    (h : x ∈ l) : (x, g x) ∈ l.zip (l.map g) := by
  induction l with
  | nil => cases h
  | cons a t ih =>
    rcases List.mem_cons.mp h with heq | htail
    · subst heq
      exact List.mem_cons_self _ _
    · exact List.mem_cons.mpr (Or.inr (ih htail))

/-! ### Sorting-length lemmas -/

theorem insertSorted_length {α : Type} (le : α → α → Bool) (x : α) (l : List α) :
    (insertSorted le x l).length = l.length + 1 := by
  induction l with
  | nil => rfl
  | cons y ys ih =>
    unfold insertSorted
    split
    · rfl
    · simp only [List.length_cons, ih]

theorem sortByB_length {α : Type} (le : α → α → Bool) (l : List α) :
    (sortByB le l).length = l.length := by
  induction l with
  | nil => rfl
  | cons x t ih =>
    show (insertSorted le x (sortByB le t)).length = t.length + 1
    rw [insertSorted_length, ih]

/-! ### Store-update lemma -/

theorem zset_aset_self (st : Store) (k : String) (zl : List (String × Int)) :
    Store.zset { st with zsets := aset st.zsets k zl } k = zl := by
  unfold Store.zset
  rw [aget_aset_self]
  rfl

/-- C5 counterexample: `AddMulti` with an empty element slice is not a
no-op returning no error — it issues a `ZADD` carrying zero members
(likewise `RemoveMulti` issues a zero-member `ZREM`) and returns the
store's arity error. -/
theorem C5_counterexample :
    addMultiBatch (⟨"q", false⟩ : ZQueue Int) intCodec [] 0 = [Cmd.zadd "q" []] ∧
    (ZQueue.AddMulti (⟨"q", false⟩ : ZQueue Int) intCodec ⟨[], []⟩ [] 0).2 =
      some (RErr.wrongArity "zadd") ∧
    (ZQueue.RemoveMulti (⟨"q", false⟩ : ZQueue Int) intCodec ⟨[], []⟩ []).2 =
      some (RErr.wrongArity "zrem") := by
  decide

/-- C5 amended: `SetMulti` with an empty field map is a no-op returning no
error; `AddMulti` with an empty element slice and `RemoveMulti` with an
empty member slice are not no-ops — each issues a zero-member
`ZADD`/`ZREM` command and returns the store's arity error rather than
nil. -/
theorem C5_empty_input_behavior {K V T : Type} (h : HashMap K V) (q : ZQueue T)
    (ck : Codec K) (cv : Codec V) (c : Codec T) :
    (∀ (st : Store) (ttl : Int), h.SetMulti ck cv st [] ttl = (st, none)) ∧
    (∀ (st : Store) (ttl : Int),
        (q.AddMulti c st [] ttl).2 = some (RErr.wrongArity "zadd")) ∧
    (∀ st : Store, (q.RemoveMulti c st []).2 = some (RErr.wrongArity "zrem")) := by
  refine ⟨fun st ttl => rfl, ?_, fun st => rfl⟩
  intro st ttl
  by_cases hp : 0 < ttl <;>
    simp [ZQueue.AddMulti, addMultiBatch, execPipe, execCmd, firstErr,
      List.findSome?, hp]

/-- C6 counterexample: a stored sorted-set member that does not decode
into the target type does not make the range call fail — the call
succeeds and the member is silently coerced to the zero value (the claim
says every decode failure is surfaced as an error). -/
theorem C6_counterexample :
    exceptOk (natCodec.toAnyE "bogus") = false ∧
    (ZQueue.RangeByScore (⟨"q", false⟩ : ZQueue Nat) natCodec
        ⟨[], [("q", [("bogus", 3)])]⟩ (-1) 10).2.2 =
      Except.ok [{ Member := 0, Score := 3 }] := by
  decide

/-- C6 amended: the HashMap multi-decode operations (`GetMulti`,
`GetAll`, `Keys`, `Values`) abort the whole call with an error on any
entry's decode failure (no partial data); the ZQueue range/pop result
conversion has no error channel — whether a range call succeeds is
independent of the codec, and an undecodable member is coerced to the
codec's zero value. -/
theorem C6_decode_error_behavior {K V T : Type} (ck : Codec K) (cv : Codec V) :
    (∀ (h : HashMap K V) (st : Store) (ks vs : String), (ks, vs) ∈ st.hash h.Key →
        exceptOk (ck.toAnyE ks) = false ∨ exceptOk (cv.toAnyE vs) = false →
        exceptOk (h.GetAll ck cv st) = false) ∧
    (∀ (h : HashMap K V) (st : Store) (fields : List K) (f : K) (s : String),
        f ∈ fields → aget (st.hash h.Key) (ck.toStr f) = some s →
        exceptOk (cv.toAnyE s) = false →
        exceptOk (h.GetMulti ck cv st fields) = false) ∧
    (∀ (h : HashMap K V) (st : Store) (ks : String),
        ks ∈ (st.hash h.Key).map Prod.fst → exceptOk (ck.toAnyE ks) = false →
        exceptOk (h.Keys ck st) = false) ∧
    (∀ (h : HashMap K V) (st : Store) (vs : String),
        vs ∈ (st.hash h.Key).map Prod.snd → exceptOk (cv.toAnyE vs) = false →
        exceptOk (h.Values cv st) = false) ∧
    (∀ (c c' : Codec T) (q : ZQueue T) (st : Store) (a b : Int),
        exceptOk (q.RangeByScore c st a b).2.2 =
          exceptOk (q.RangeByScore c' st a b).2.2) ∧
    (∀ (c : Codec T) (z : Int × String), exceptOk (c.toAnyE z.2) = false →
        redisZToElement c z = { Member := c.zero, Score := i64ofF64 z.1 }) := by
  refine ⟨?_, ?_, ?_, ?_, ?_, ?_⟩
  · intro h st ks vs hmem hfail
    exact decodePairs_err ck cv (st.hash h.Key) ks vs hmem hfail
  · intro h st fields f s hf hget hfail
    cases fields with
    | nil => cases hf
    | cons a t =>
      have hm := zip_map_self_mem (fun x => aget (st.hash h.Key) (ck.toStr x)) hf
      dsimp only at hm
      rw [hget] at hm
      show exceptOk (decodeOptPairs cv
        ((a :: t).zip (((a :: t).map ck.toStr).map (aget (st.hash h.Key))))) = false
      rw [List.map_map,
        (rfl : (aget (st.hash h.Key) ∘ ck.toStr) =
          fun x => aget (st.hash h.Key) (ck.toStr x))]
      exact decodeOptPairs_err cv _ f s hm hfail
  · intro h st ks hmem hfail
    exact decodeList_err ck ((st.hash h.Key).map Prod.fst) ks hmem hfail
  · intro h st vs hmem hfail
    exact decodeList_err cv ((st.hash h.Key).map Prod.snd) vs hmem hfail
  · intro c c' q st a b
    unfold ZQueue.RangeByScore ZQueue.rangeByScoreInternal
    dsimp only
    cases hE : (execCmd st (rangeCmd q a b 0 (-1) q.Desc)).2 with
    | error e => rfl
    | ok r => cases r <;> rfl
  · intro c z hfail
    unfold redisZToElement Codec.toAny
    cases hz : c.toAnyE z.2 with
    | error e => rfl
    | ok v =>
      rw [hz] at hfail
      cases hfail

/-- C6 witness: the abort-on-decode-failure half applied to a concrete
hash holding an undecodable value. -/
theorem C6_decode_error_behavior_witness :
    exceptOk (HashMap.GetAll (⟨"h"⟩ : HashMap Int Int) intCodec intCodec
      ⟨[("h", [("1", "x")])], []⟩) = false :=
  (C6_decode_error_behavior (T := Int) intCodec intCodec).1 ⟨"h"⟩
    ⟨[("h", [("1", "x")])], []⟩ "1" "x" (by decide) (Or.inr (by decide))

/-- C7: `HashMap.Get` on an absent field returns the zero value of `V`
with no error, while `ZQueue.Score` on an absent member returns the
propagated `redis.Nil` error — absence is treated asymmetrically. -/
theorem C7_absence_asymmetry {K V T : Type} (ck : Codec K) (cv : Codec V)
    (c : Codec T) :
    (∀ (h : HashMap K V) (st : Store) (f : K),
        aget (st.hash h.Key) (ck.toStr f) = none →
        h.Get ck cv st f = Except.ok cv.zero) ∧
    (∀ (q : ZQueue T) (st : Store) (m : T),
        aget (st.zset q.Key) (c.toStr m) = none →
        q.Score c st m = Except.error RErr.rnil) := by
  constructor
  · intro h st f habs
    simp only [HashMap.Get, execCmd, habs]
  · intro q st m habs
    simp only [ZQueue.Score, execCmd, habs]

/-- C7 witness: the asymmetry at a concrete empty store. -/
theorem C7_absence_asymmetry_witness :
    HashMap.Get (⟨"h"⟩ : HashMap Int Int) intCodec intCodec ⟨[], []⟩ 7 =
      Except.ok 0 ∧
    ZQueue.Score (⟨"q", false⟩ : ZQueue Int) intCodec ⟨[], []⟩ 7 =
      Except.error RErr.rnil :=
  ⟨(C7_absence_asymmetry (V := Int) intCodec intCodec intCodec).1 ⟨"h"⟩ ⟨[], []⟩ 7
      (by decide),
   (C7_absence_asymmetry (K := Int) (V := Int) intCodec intCodec intCodec).2
      ⟨"q", false⟩ ⟨[], []⟩ 7 (by decide)⟩

/-- C8: `PopMin`/`PopMax` on an empty container return the "no element"
indicator (`none`) with no error, and `PopMinMulti`/`PopMaxMulti` with a
count at least the container size return exactly the elements that
exist. -/
theorem C8_pop_semantics {T : Type} (c : Codec T) :
    (∀ (q : ZQueue T) (st : Store), st.zset q.Key = [] →
        (q.PopMin c st).2 = Except.ok none ∧ (q.PopMax c st).2 = Except.ok none) ∧
    (∀ (q : ZQueue T) (st : Store) (n : Int), 0 ≤ n →
        (st.zset q.Key).length ≤ n.toNat →
        (q.PopMinMulti c st n).2 =
          Except.ok (redisZToElements c
            ((sortAsc (st.zset q.Key)).map fun p => (p.2, p.1))) ∧
        (q.PopMaxMulti c st n).2 =
          Except.ok (redisZToElements c
            ((sortAsc (st.zset q.Key)).reverse.map fun p => (p.2, p.1)))) := by
  constructor
  · intro q st hempty
    constructor
    · simp [ZQueue.PopMin, execCmd, hempty, sortAsc, sortByB]
    · simp [ZQueue.PopMax, execCmd, hempty, sortAsc, sortByB]
  · intro q st n hn hlen
    have hnneg : ¬ n < 0 := by omega
    have htakeMin : (sortAsc (st.zset q.Key)).take n.toNat = sortAsc (st.zset q.Key) :=
      List.take_of_length_le (by rw [sortAsc, sortByB_length]; exact hlen)
    have htakeMax : (sortAsc (st.zset q.Key)).reverse.take n.toNat =
        (sortAsc (st.zset q.Key)).reverse :=
      List.take_of_length_le
        (by rw [List.length_reverse, sortAsc, sortByB_length]; exact hlen)
    constructor
    · simp only [ZQueue.PopMinMulti, execCmd, if_neg hnneg, htakeMin]
    · simp only [ZQueue.PopMaxMulti, execCmd, if_neg hnneg, htakeMax]

/-- C8 witness: popping from an empty queue and over-popping a two-element
queue. -/
theorem C8_pop_semantics_witness :
    (ZQueue.PopMin (⟨"q", false⟩ : ZQueue Int) intCodec ⟨[], []⟩).2 =
      Except.ok none ∧
    (ZQueue.PopMinMulti (⟨"q", false⟩ : ZQueue Int) intCodec
        ⟨[], [("q", [("1", 1), ("2", 2)])]⟩ 10).2 =
      Except.ok [{ Member := 1, Score := 1 }, { Member := 2, Score := 2 }] := by
  constructor
  · exact ((C8_pop_semantics intCodec).1 ⟨"q", false⟩ ⟨[], []⟩ rfl).1
  · have hmain := ((C8_pop_semantics intCodec).2 ⟨"q", false⟩
      ⟨[], [("q", [("1", 1), ("2", 2)])]⟩ 10 (by norm_num) (by decide)).1
    rw [hmain]
    decide

/-- C9: an `int64` score with |s| ≤ 2^53 survives the adapter's
conversions exactly — the `float64` conversion at `Add` and the `int64`
conversion at `Score` compose to the identity, so `Score` after
`Add(member, s)` yields `s`. -/
theorem C9_score_roundtrip {T : Type} (c : Codec T) :
    ∀ (q : ZQueue T) (st : Store) (m : T) (s ttl : Int), s.natAbs ≤ 2 ^ 53 →
      i64ofF64 (f64ofInt s) = s ∧
      ZQueue.Score q c (q.Add c st m s ttl).1 m = Except.ok s := by
  intro q st m s ttl hs
  refine ⟨i64ofF64_f64ofInt hs, ?_⟩
  have hst : (q.Add c st m s ttl).1 =
      Store.mk st.hashes
        (aset st.zsets q.Key (aset (st.zset q.Key) (c.toStr m) (f64ofInt s))) := by
    unfold ZQueue.Add addBatch
    by_cases hp : 0 < ttl
    · simp [hp, execPipe, execCmd]
    · simp [hp, execPipe, execCmd]
  rw [hst]
  have hz : aget (Store.zset (Store.mk st.hashes
      (aset st.zsets q.Key (aset (st.zset q.Key) (c.toStr m) (f64ofInt s)))) q.Key)
      (c.toStr m) = some (f64ofInt s) := by
    rw [zset_aset_self, aget_aset_self]
  simp only [ZQueue.Score, execCmd, hz, i64ofF64_f64ofInt hs]

/-- C9 witness: a score of 5 round-trips through `Add` and `Score`. -/
theorem C9_score_roundtrip_witness :
    (5 : Int).natAbs ≤ 2 ^ 53 ∧
    ZQueue.Score (⟨"q", false⟩ : ZQueue Int) intCodec
      ((ZQueue.Add (⟨"q", false⟩ : ZQueue Int) intCodec ⟨[], []⟩ 7 5 0).1) 7 =
      Except.ok 5 :=
  ⟨by decide,
   (C9_score_roundtrip intCodec ⟨"q", false⟩ ⟨[], []⟩ 7 5 0 (by decide)).2⟩

end Kit
